import Mathlib

/-!
Verification of the ticker-extraction-and-inheritance core of the
wsb-analytics repository (`app/nlp.py`, `app/db.py`).

Python floats are modelled as exact rationals (`ℚ`); Python's `round(x, 2)`
is modelled as round-half-to-even at two decimal places on rationals.
Strings are ASCII-modelled: Python's `str.strip` is `pyStrip` (drop
leading/trailing whitespace), `str.upper` maps `Char.toUpper`, and `re`
word characters are `[A-Za-z0-9_]`.  (Kernel-reducible list-based string
helpers stand in for the core `String` methods, which are not
definitionally computable.)  The external collaborators (the OpenAI chat API and the
`json` library) are modelled as explicit function parameters, as the spec
directs ("treated as an opaque collaborator").
-/

/-- Round-half-to-even of a rational to an integer (Python's `round`). -/
def roundHalfEven (x : ℚ) : ℤ :=
  let f : ℤ := ⌊x⌋
  let frac : ℚ := x - f
  if frac < 1/2 then f
  else if 1/2 < frac then f + 1
  else if f % 2 = 0 then f else f + 1

/-- Python's `round(x, 2)` on exact rationals. -/
def round2 (q : ℚ) : ℚ := (roundHalfEven (q * 100) : ℚ) / 100

/-- Python's `str.strip()`: drop leading and trailing whitespace. -/
def pyStrip (s : String) : String :=
  String.mk (((s.data.dropWhile Char.isWhitespace).reverse.dropWhile Char.isWhitespace).reverse)

/-- Python's `str.upper()` over ASCII. -/
def pyUpperStr (s : String) : String := String.mk (s.data.map Char.toUpper)

/-!  ## Confidence Scorer (`nlp.calculate_extraction_confidence`)  -/

/-- The accumulated `base_confidence` value of
`nlp.calculate_extraction_confidence` just before the final clamp line
(`max(0.3, min(1.0, base_confidence))`).  The company-name bonus condition
is Python's `if company_name and company_name.strip():` (truthy and truthy
after stripping whitespace). -/
def extraction_confidence_preclamp (ticker company_name : String) (span_found : Bool) : ℚ :=
  let b1 : ℚ := if company_name ≠ "" ∧ pyStrip company_name ≠ "" then 0.8 + 0.1 else 0.8
  let b2 : ℚ := if ticker.length ≤ 2 then b1 - 0.1
                else if 4 ≤ ticker.length then b1 + 0.05 else b1
  if span_found then b2 else b2 - 0.2

/-- `nlp.calculate_extraction_confidence(ticker, company_name, hype_score,
span_found)`: the accumulated base confidence clamped to `[0.3, 1.0]`.
(`hype_score` is a parameter of the Python function but is unused in its
body.) -/
def calculate_extraction_confidence (ticker company_name : String)
    (hype_score : ℚ) (span_found : Bool) : ℚ :=
  max 0.3 (min 1.0 (extraction_confidence_preclamp ticker company_name span_found))

/-!  ## Inheritance Engine (`nlp.inherit_tickers_with_context`,
`db.inherit_parent_tickers`)  -/

/-- A post-level ticker row as selected by `db.try_contextual_inheritance`
(`select("ticker, confidence, hype_score, company_name")`). -/
structure PostTicker where
  ticker : String
  confidence : ℚ
  hype_score : ℚ
  company_name : String
deriving DecidableEq, Repr

/-- An inherited ticker record built by `nlp.inherit_tickers_with_context`. -/
structure InheritedTicker where
  ticker : String
  span : Int × Int
  confidence : ℚ
  method : String
  hype_score : ℚ
  company_name : String
  inheritance_source : String
  context_post_id : String
deriving DecidableEq, Repr

/-- `db.store_tickers_to_db`'s conversion of an in-memory span to database
columns: `int(start) if start != -1 else None` (and likewise for the end).
A `(-1, -1)` span is stored as absent (`(none, none)`). -/
def span_to_db (span : Int × Int) : Option Int × Option Int :=
  (if span.1 ≠ -1 then some span.1 else none,
   if span.2 ≠ -1 then some span.2 else none)

/-- `nlp.inherit_tickers_with_context(post_tickers, contextual_hype,
post_reddit_id)`: no inheritance when the post ticker list is empty or the
contextual hype is below the 0.3 threshold; otherwise one inherited record
per post ticker with confidence `min(0.75, contextual_hype + 0.2)`. -/
def inherit_tickers_with_context (post_tickers : List PostTicker)
    (contextual_hype : ℚ) (post_reddit_id : String) : List InheritedTicker :=
  if post_tickers = [] ∨ contextual_hype < 0.3 then []
  else
    post_tickers.map fun ticker_data =>
      { ticker := pyUpperStr ticker_data.ticker
        span := (-1, -1)
        confidence := min 0.75 (contextual_hype + 0.2)
        method := "contextual_inheritance"
        hype_score := contextual_hype
        company_name := ticker_data.company_name
        inheritance_source := "post_context"
        context_post_id := post_reddit_id }

/-- A parent-comment ticker row as selected by `db.inherit_parent_tickers`
(`select("ticker,confidence")`). -/
structure ParentMention where
  ticker : String
  confidence : ℚ
deriving DecidableEq, Repr

/-- A child row built by `db.inherit_parent_tickers`. -/
structure InheritedRow where
  kind : String
  content_reddit_id : String
  ticker : String
  confidence : ℚ
  method : String
  source : String
  inherited_from : String
deriving DecidableEq, Repr

/-- The pure core of `db.inherit_parent_tickers`: given the parent's ticker
rows (the DB returns them ordered by descending confidence), build the
child's rows with confidence `min(0.50, parent_confidence * 0.8)`; if the
parent has none, nothing is inherited. -/
def inherit_parent_tickers (parents : List ParentMention)
    (parent_reddit_id child_reddit_id : String) : List InheritedRow :=
  if parents = [] then []
  else
    parents.map fun parent =>
      { kind := "comment"
        content_reddit_id := child_reddit_id
        ticker := parent.ticker
        confidence := min 0.50 (parent.confidence * 0.8)
        method := "inherit"
        source := "inherited"
        inherited_from := parent_reddit_id }

/-!  ## Contextual Hype Analyzer (`nlp.analyze_contextual_hype`)  -/

/-- Outcome of one attempt of the hype backend call plus response parsing,
abstracting the OpenAI call of `nlp.analyze_contextual_hype`:
`parsed v` — the response cleaned, parsed and converted by `float(...)` to
`v`; `parseFail` — empty cleaned response, `json.JSONDecodeError`,
`ValueError` or `KeyError` (the retryable branch); `raises` — any other
exception (including the API call failing), which returns 0.0 at once. -/
inductive HypeAttempt where
  | raises : HypeAttempt
  | parseFail : HypeAttempt
  | parsed : ℚ → HypeAttempt

/-- `nlp.analyze_contextual_hype` with the backend abstracted; returns the
score together with the number of backend calls made.  The guard is the
source's `if not text or len(text.strip()) < 3: return 0.0`; a parsed value
is clamped by `max(0.0, min(1.0, float(contextual_hype)))`. -/
def analyze_contextual_hype (backend : ℕ → HypeAttempt) (text : String) : ℚ × ℕ :=
  if text = "" ∨ (pyStrip text).length < 3 then (0, 0)
  else
    match backend 0 with
    | .parsed v => (max 0 (min 1 v), 1)
    | .raises => (0, 1)
    | .parseFail =>
      match backend 1 with
      | .parsed v => (max 0 (min 1 v), 2)
      | .raises => (0, 2)
      | .parseFail => (0, 2)

/-- The number of non-whitespace characters of a string — the measure used
by the spec's description of the short-text guard. -/
def nonWhitespaceCount (s : String) : ℕ :=
  (s.data.filter (fun c => !c.isWhitespace)).length

/-!  ## Aggregator (`db.update_ticker_aggregation`)  -/

/-- One row of the `tickers` aggregation table. -/
structure TickerRow where
  ticker : String
  company_name : String
  total_mentions : Int
  total_posts : Int
  total_comments : Int
  avg_hype_score : ℚ
  max_hype_score : ℚ
  last_mentioned_at : String
deriving DecidableEq, Repr

/-- One element of the ticker-dict list passed to
`db.update_ticker_aggregation` (the fields it reads via `.get`). -/
structure MentionData where
  ticker : String
  hype_score : ℚ
  company_name : String
deriving DecidableEq, Repr

/-- The `select("*").eq("ticker", ticker)` lookup on the aggregation table. -/
def aggLookup (table : List TickerRow) (t : String) : Option TickerRow :=
  table.find? (fun r => r.ticker == t)

/-- The `.update({...}).eq("ticker", t)` write: every row keyed `t` is
replaced by the new row. -/
def aggUpdate (table : List TickerRow) (t : String) (r : TickerRow) : List TickerRow :=
  table.map (fun x => if x.ticker == t then r else x)

/-- One iteration of the loop body of `db.update_ticker_aggregation` for a
single mention: skip empty tickers; update an existing row with
`new_avg = ((current_avg * current["total_mentions"]) + hype_score) / new_total`
stored as `round(new_avg, 2)`, `max_hype` stored as
`round(max(current_max, hype_score), 2)`, and
`"company_name": company_name or current.get("company_name", "")`;
otherwise insert a fresh row. -/
def update_ticker_aggregation_step (kind : String) (table : List TickerRow)
    (ticker_data : MentionData) : List TickerRow :=
  let ticker := pyUpperStr ticker_data.ticker
  if ticker = "" then table
  else
    let hype_score := ticker_data.hype_score
    let company_name := ticker_data.company_name
    match aggLookup table ticker with
    | some current =>
      let new_total := current.total_mentions + 1
      let new_posts := current.total_posts + (if kind = "post" then 1 else 0)
      let new_comments := current.total_comments + (if kind = "comment" then 1 else 0)
      let new_avg : ℚ := ((current.avg_hype_score * (current.total_mentions : ℚ)) + hype_score) / (new_total : ℚ)
      let max_hype : ℚ := max current.max_hype_score hype_score
      aggUpdate table ticker
        { ticker := ticker
          company_name := if company_name ≠ "" then company_name else current.company_name
          total_mentions := new_total
          total_posts := new_posts
          total_comments := new_comments
          avg_hype_score := round2 new_avg
          max_hype_score := round2 max_hype
          last_mentioned_at := "NOW()" }
    | none =>
      table ++ [{ ticker := ticker
                  company_name := company_name
                  total_mentions := 1
                  total_posts := if kind = "post" then 1 else 0
                  total_comments := if kind = "comment" then 1 else 0
                  avg_hype_score := round2 hype_score
                  max_hype_score := round2 hype_score
                  last_mentioned_at := "NOW()" }]

/-- `db.update_ticker_aggregation(supabase, tickers, kind)` as a fold of the
per-mention step over the aggregation table. -/
def update_ticker_aggregation (kind : String) (table : List TickerRow)
    (tickers : List MentionData) : List TickerRow :=
  tickers.foldl (update_ticker_aggregation_step kind) table

/-!  ## Collapse to best (`db.store_tickers_to_db`, lines 252-257)  -/

/-- One element of the ticker-dict list handled by `db.store_tickers_to_db`
(the fields produced by `nlp.llm_extractor` for direct extractions). -/
structure TickerItem where
  ticker : String
  span : Int × Int
  confidence : ℚ
  method : String
  hype_score : ℚ
  company_name : String
deriving DecidableEq, Repr

/-- One step of the `best` dict construction of `db.store_tickers_to_db`:
`if (t not in best) or (it["confidence"] > best[t]["confidence"]): best[t] = it`.
A Python dict is insertion-ordered, so a new key is appended and an update
replaces in place. -/
def updBest : List TickerItem → TickerItem → List TickerItem
  | [], it => [it]
  | b :: rest, it =>
    if b.ticker = it.ticker then
      (if it.confidence > b.confidence then it else b) :: rest
    else
      b :: updBest rest it

/-- The collapse loop of `db.store_tickers_to_db`: one row per ticker,
keeping the highest-confidence occurrence (`best.values()` in insertion
order). -/
def collapse_to_best (tickers : List TickerItem) : List TickerItem :=
  tickers.foldl updBest []

/-- Left fold picking the strictly-better item, mirroring the repeated
`best[t] = it` updates restricted to a single ticker key. -/
def best1 : TickerItem → List TickerItem → TickerItem
  | b, [] => b
  | b, x :: xs => best1 (if x.confidence > b.confidence then x else b) xs

/-!  ## Span Finder (`nlp.find_ticker_span`)  -/

/-- A regex word character (`\w` over ASCII): letters, digits, underscore. -/
def isWordChar (c : Char) : Bool := c.isAlphanum || c = '_'

/-- Case-insensitive character comparison, modelling `re.IGNORECASE` (and
`str.upper`-then-compare) over ASCII. -/
def ciEq (a b : Char) : Bool := a.toUpper == b.toUpper

/-- Case-insensitive literal match of `pat` inside `text` starting at
index `i`. -/
def substAt (text pat : List Char) (i : ℕ) : Bool :=
  decide (i + pat.length ≤ text.length) &&
  (List.range pat.length).all (fun j =>
    match text[i + j]?, pat[j]? with
    | some a, some b => ciEq a b
    | _, _ => false)

/-- Exact (case-sensitive) literal match of `pat` inside `text` starting at
index `i` — the semantics of Python's `str.find` candidate test. -/
def exactSubstAt (text pat : List Char) (i : ℕ) : Bool :=
  decide (i + pat.length ≤ text.length) &&
  (List.range pat.length).all (fun j => text[i + j]? == pat[j]?)

/-- Whether the character at index `k` of `text` is a word character
(out-of-range counts as not a word character). -/
def wordAt (text : List Char) (k : ℕ) : Bool :=
  match text[k]? with
  | some c => isWordChar c
  | none => false

/-- The regex word boundary `\b` at position `p` (between characters `p-1`
and `p`): exactly one side is a word character. -/
def boundaryAt (text : List Char) (p : ℕ) : Bool :=
  (match p with
   | 0 => false
   | k + 1 => wordAt text k) != wordAt text p

/-- A match of strategy 1 of `nlp.find_ticker_span` at index `i`: the regex
`rf'\${re.escape(ticker)}\b'` with `re.IGNORECASE` — a literal `$`, then
the ticker case-insensitively, then a word boundary. -/
def dollarMatchAt (text pat : List Char) (i : ℕ) : Bool :=
  (text[i]? == some '$') && substAt text pat (i + 1) && boundaryAt text (i + 1 + pat.length)

/-- A match of strategy 2 of `nlp.find_ticker_span` at index `i`: the regex
`rf'\b{re.escape(ticker)}\b'` with `re.IGNORECASE`. -/
def wordMatchAt (text pat : List Char) (i : ℕ) : Bool :=
  boundaryAt text i && substAt text pat i && boundaryAt text (i + pat.length)

/-- Leftmost index in `[i, i + fuel)` satisfying `p`. -/
def firstIdxAux (p : ℕ → Bool) : ℕ → ℕ → Option ℕ
  | 0, _ => none
  | fuel + 1, i => if p i then some i else firstIdxAux p fuel (i + 1)

/-- Leftmost index in `[0, n]` satisfying `p` — the scan order of
`re.search` and `str.find` over start positions. -/
def firstIdx (p : ℕ → Bool) (n : ℕ) : Option ℕ := firstIdxAux p (n + 1) 0

/-- Python's `hay.find(needle)` (first exact occurrence index). -/
def pyStrFind (hay needle : List Char) : Option ℕ :=
  firstIdx (exactSubstAt hay needle) hay.length

/-- `nlp.find_ticker_span(text, ticker)`: the guard
`if not text or not ticker: return (-1, -1)`, then strategy 1
(`$`-prefixed, word-bounded), strategy 2 (standalone word-bounded),
strategy 3 (`text.upper().find(ticker.upper())`, span
`(start, start + len(ticker))`), else the `(-1, -1)` sentinel. -/
def find_ticker_span (text ticker : String) : Int × Int :=
  let T := text.data
  let K := ticker.data
  if text = "" ∨ ticker = "" then (-1, -1)
  else
    match firstIdx (dollarMatchAt T K) T.length with
    | some i => ((i : Int), (i : Int) + 1 + (K.length : Int))
    | none =>
      match firstIdx (wordMatchAt T K) T.length with
      | some i => ((i : Int), (i : Int) + (K.length : Int))
      | none =>
        match pyStrFind (T.map Char.toUpper) (K.map Char.toUpper) with
        | some i => ((i : Int), (i : Int) + (K.length : Int))
        | none => (-1, -1)

/-!  ## Direct Extractor (`nlp.clean_and_validate_json`, `nlp.llm_extractor`)

The `json` library is modelled as an abstract parameter
`jsonParse : String → Option Json` (`json.loads`, `none` for
`json.JSONDecodeError`), and the OpenAI call as
`backend : ℕ → Option String` giving the stripped response text of each
attempt (`none` when the API call raises).  Runtime errors of the
dynamically-typed result-conversion code are made explicit with `Except`. -/

/-- A parsed JSON value (the possible results of `json.loads`). -/
inductive Json where
  | null : Json
  | bool : Bool → Json
  | num : ℚ → Json
  | str : String → Json
  | arr : List Json → Json
  | obj : List (String × Json) → Json

/-- A Python runtime error escaping `nlp.llm_extractor`'s result-conversion
code. -/
inductive PyErr where
  | attributeError : PyErr
  | typeError : PyErr
deriving DecidableEq, Repr

/-- Key lookup in a parsed JSON object. -/
def jlookup (fs : List (String × Json)) (k : String) : Option Json :=
  (fs.find? (fun f => f.1 == k)).map (fun f => f.2)

/-- Python's `value.get(key, default)`: defined for dicts, an
`AttributeError` on every other value. -/
def jget (v : Json) (k : String) (dflt : Json) : Except PyErr Json :=
  match v with
  | .obj fs => .ok ((jlookup fs k).getD dflt)
  | _ => .error .attributeError

/-- Python truthiness of a parsed JSON value. -/
def pyTruthy : Json → Bool
  | .null => false
  | .bool b => b
  | .num q => q != 0
  | .str s => s != ""
  | .arr xs => !xs.isEmpty
  | .obj fs => !fs.isEmpty

/-- Python's `value.upper()`: defined for strings only. -/
def pyUpper : Json → Except PyErr String
  | .str s => .ok (pyUpperStr s)
  | _ => .error .attributeError

/-- Python iteration `for x in value`: lists yield elements, strings yield
their characters, dicts yield their keys; other values raise `TypeError`. -/
def pyIter : Json → Except PyErr (List Json)
  | .arr xs => .ok xs
  | .str s => .ok (s.data.map (fun c => .str (String.mk [c])))
  | .obj fs => .ok (fs.map (fun f => .str f.1))
  | _ => .error .typeError

/-- Whether a parsed JSON value is a string. -/
def jsonIsStr : Json → Bool
  | .str _ => true
  | _ => false

/-- `nlp.calculate_extraction_confidence` as invoked from `llm_extractor`
with a dynamically-typed `company_name`: `if company_name and
company_name.strip():` raises `AttributeError` on a truthy non-string, is
the no-bonus branch on a falsy value, and is the string computation
otherwise (`hype_score` is unused by the scorer). -/
def py_extraction_confidence (symbol : String) (company : Json)
    (span_found : Bool) : Except PyErr ℚ :=
  match company with
  | .str s => .ok (calculate_extraction_confidence symbol s 0 span_found)
  | c =>
    if pyTruthy c then .error .attributeError
    else .ok (calculate_extraction_confidence symbol "" 0 span_found)

/-- One element of `nlp.llm_extractor`'s result list. -/
structure LLMResult where
  ticker : String
  span : Int × Int
  confidence : ℚ
  method : String
  hype_score : Json
  company_name : Json

/-- The per-ticker body of `nlp.llm_extractor`'s result loop:
`symbol = ticker_info.get("symbol", "").upper()`,
`company_name = ticker_info.get("name", "")`, span detection, confidence
scoring, and the result dict with `method = "llm"`. -/
def llm_ticker_result (text : String) (hype : Json) (ticker_info : Json) :
    Except PyErr LLMResult := do
  let symJ ← jget ticker_info "symbol" (.str "")
  let symbol ← pyUpper symJ
  let company_name ← jget ticker_info "name" (.str "")
  let sp := find_ticker_span text symbol
  let confidence ← py_extraction_confidence symbol company_name (sp.1 != -1)
  pure { ticker := symbol
         span := sp
         confidence := confidence
         method := "llm"
         hype_score := hype
         company_name := company_name }

/-- The result-conversion code of `nlp.llm_extractor` after the retry loop
(lines 127-150): read `hype_score` (default `0.0`) and `tickers`
(default `[]`) from the parsed response and build one result per reported
ticker. -/
def llm_build_results (text : String) (parsed : Json) :
    Except PyErr (List LLMResult) := do
  let hype ← jget parsed "hype_score" (.num 0)
  let tickersJ ← jget parsed "tickers" (.arr [])
  let items ← pyIter tickersJ
  items.mapM (llm_ticker_result text hype)

/-- Index of the first occurrence of character `c` (`str.find`). -/
def strFindChar (s : String) (c : Char) : Option ℕ :=
  s.data.findIdx? (fun a => a == c)

/-- Index of the last occurrence of character `c` (`str.rfind`). -/
def strRFindChar (s : String) (c : Char) : Option ℕ :=
  match s.data.reverse.findIdx? (fun a => a == c) with
  | some i => some (s.data.length - 1 - i)
  | none => none

/-- Python slice `s[a:b]` for `0 ≤ a ≤ b`. -/
def strSlice (s : String) (a b : ℕ) : String :=
  String.mk ((s.data.drop a).take (b - a))

/-- `nlp.clean_and_validate_json(response)`: empty in, empty out; strip;
drop a leading ```` ```json ```` or ```` ``` ```` fence and a trailing
```` ``` ```` fence; strip again; if a `{` appears before some `}`, try the
brace-delimited slice as JSON; otherwise (or if that fails) try the whole
remaining string; return the validated string, or `""` if nothing parses. -/
def clean_and_validate_json (jsonParse : String → Option Json)
    (response : String) : String :=
  if response = "" then ""
  else
    let r0 := pyStrip response
    let r1 := if "```json".data.isPrefixOf r0.data then String.mk (r0.data.drop 7)
              else if "```".data.isPrefixOf r0.data then String.mk (r0.data.drop 3)
              else r0
    let r2 := if "```".data.reverse.isPrefixOf r1.data.reverse
              then String.mk (r1.data.take (r1.data.length - 3)) else r1
    let r := pyStrip r2
    let full : String := if (jsonParse r).isSome then r else ""
    match strFindChar r '{', strRFindChar r '}' with
    | some json_start, some rbrace =>
      if json_start < rbrace + 1 then
        let potential_json := strSlice r json_start (rbrace + 1)
        if (jsonParse potential_json).isSome then potential_json else full
      else full
    | _, _ => full

/-- The second iteration of `nlp.llm_extractor`'s retry loop: an API
exception, an empty cleaned response or a `json.JSONDecodeError` on the
final attempt all `return []`; a successful parse falls through to the
result conversion. -/
def llm_second_attempt (jsonParse : String → Option Json)
    (backend : ℕ → Option String) (text : String) :
    Except PyErr (List LLMResult) :=
  match backend 1 with
  | none => .ok []
  | some raw1 =>
    let c1 := clean_and_validate_json jsonParse (pyStrip raw1)
    if c1 = "" then .ok []
    else
      match jsonParse c1 with
      | some parsed => llm_build_results text parsed
      | none => .ok []

/-- `nlp.llm_extractor(text)` with the OpenAI call and the `json` library
abstracted.  Attempt 0: an API exception returns `[]` at once; an empty
cleaned response or a parse error retries; a successful parse breaks out of
the loop into the result conversion. -/
def llm_extractor (jsonParse : String → Option Json)
    (backend : ℕ → Option String) (text : String) :
    Except PyErr (List LLMResult) :=
  match backend 0 with
  | none => .ok []
  | some raw0 =>
    let c0 := clean_and_validate_json jsonParse (pyStrip raw0)
    if c0 = "" then llm_second_attempt jsonParse backend text
    else
      match jsonParse c0 with
      | some parsed => llm_build_results text parsed
      | none => llm_second_attempt jsonParse backend text

/-- Whether a `tickers` entry is shaped so that the result loop cannot
raise: a dict whose `symbol` (if present) is a string and whose `name`
(if present) is a string or falsy. -/
def tickerEntryOK (t : Json) : Bool :=
  match t with
  | .obj fs =>
    (match jlookup fs "symbol" with
     | none => true
     | some v => jsonIsStr v) &&
    (match jlookup fs "name" with
     | none => true
     | some w => jsonIsStr w || !pyTruthy w)
  | _ => false

/-- Whether a parsed response is shaped so that `llm_extractor`'s result
conversion cannot raise: a dict whose `tickers` (if present) is a list of
well-shaped entries. -/
def responseOK (parsed : Json) : Bool :=
  match parsed with
  | .obj fs =>
    (match jlookup fs "tickers" with
     | none => true
     | some (.arr ts) => ts.all tickerEntryOK
     | some _ => false)
  | _ => false

/-- Whether an `Except` computation ended in an error (a raised Python
exception in this model). -/
def isErr {ε α : Type} : Except ε α → Bool
  | .error _ => true
  | .ok _ => false

/-- A concrete model of `json.loads` sufficient for the string `"1"` (valid
JSON denoting the number 1), used to exhibit a raising run. -/
def jsonParseStub : String → Option Json :=
  fun s => if s = "1" then some (.num 1) else none

/-!  ## Helper lemmas  -/

theorem extraction_confidence_preclamp_formula (ticker company_name : String) (span_found : Bool) :
    extraction_confidence_preclamp ticker company_name span_found =
      0.8 + (if company_name ≠ "" ∧ pyStrip company_name ≠ "" then (0.1 : ℚ) else 0)
          + (if ticker.length ≤ 2 then (-0.1 : ℚ) else 0)
          + (if 4 ≤ ticker.length then (0.05 : ℚ) else 0)
          + (if span_found then (0 : ℚ) else -0.2) := by
  unfold extraction_confidence_preclamp
  split_ifs <;> first | (exfalso; omega) | norm_num

theorem extraction_confidence_preclamp_bounds (ticker company_name : String) (span_found : Bool) :
    1/2 ≤ extraction_confidence_preclamp ticker company_name span_found ∧
    extraction_confidence_preclamp ticker company_name span_found ≤ 19/20 := by
  unfold extraction_confidence_preclamp
  split_ifs <;> norm_num

theorem calculate_extraction_confidence_eq_preclamp (ticker company_name : String)
    (hype_score : ℚ) (span_found : Bool) :
    calculate_extraction_confidence ticker company_name hype_score span_found =
      extraction_confidence_preclamp ticker company_name span_found := by
  obtain ⟨h1, h2⟩ := extraction_confidence_preclamp_bounds ticker company_name span_found
  unfold calculate_extraction_confidence
  rw [min_eq_right (by norm_num at h2 ⊢; linarith), max_eq_right (by norm_num at h1 ⊢; linarith)]

theorem extraction_confidence_preclamp_span_penalty (ticker company_name : String) :
    extraction_confidence_preclamp ticker company_name false =
      extraction_confidence_preclamp ticker company_name true - 0.2 := by
  rw [extraction_confidence_preclamp_formula, extraction_confidence_preclamp_formula]
  norm_num
  ring

/-!  ## Claim theorems  -/

/-- Claim C5: for every ticker, company name, and span_found flag, the
confidence score equals the clamp to `[0.3, 1.0]` of 0.8, plus 0.1 if the
company name is present and non-empty (Python truthiness: non-blank after
stripping), minus 0.1 if the ticker length is at most 2, plus 0.05 if the
ticker length is at least 4, minus 0.2 if the span was not found; the
result always lies within `[0.3, 1.0]` and, all else equal, is strictly
lower when the span is not found. -/
theorem C5_confidence_scorer (ticker company_name : String) (hype_score : ℚ) (span_found : Bool) :
    calculate_extraction_confidence ticker company_name hype_score span_found =
      max 0.3 (min 1.0 ((0.8 : ℚ)
        + (if company_name ≠ "" ∧ pyStrip company_name ≠ "" then 0.1 else 0)
        + (if ticker.length ≤ 2 then -0.1 else 0)
        + (if 4 ≤ ticker.length then 0.05 else 0)
        + (if span_found then 0 else -0.2))) ∧
    0.3 ≤ calculate_extraction_confidence ticker company_name hype_score span_found ∧
    calculate_extraction_confidence ticker company_name hype_score span_found ≤ 1.0 ∧
    calculate_extraction_confidence ticker company_name hype_score false <
      calculate_extraction_confidence ticker company_name hype_score true := by
  obtain ⟨hlo, hhi⟩ := extraction_confidence_preclamp_bounds ticker company_name span_found
  obtain ⟨hlo', hhi'⟩ := extraction_confidence_preclamp_bounds ticker company_name true
  refine ⟨?_, ?_, ?_, ?_⟩
  · rw [← extraction_confidence_preclamp_formula]; rfl
  · rw [calculate_extraction_confidence_eq_preclamp]
    norm_num; linarith
  · rw [calculate_extraction_confidence_eq_preclamp]
    norm_num; linarith
  · rw [calculate_extraction_confidence_eq_preclamp,
        calculate_extraction_confidence_eq_preclamp,
        extraction_confidence_preclamp_span_penalty]
    norm_num

/-- Claim C10 (implicit): the pre-clamp confidence always lies in
`[0.5, 0.95]`, so the clamp to `[0.3, 1.0]` never binds, and neither the
0.3 floor nor the 1.0 ceiling is ever attained. -/
theorem C10_clamp_never_binds (ticker company_name : String) (hype_score : ℚ) (span_found : Bool) :
    1/2 ≤ extraction_confidence_preclamp ticker company_name span_found ∧
    extraction_confidence_preclamp ticker company_name span_found ≤ 19/20 ∧
    calculate_extraction_confidence ticker company_name hype_score span_found =
      extraction_confidence_preclamp ticker company_name span_found ∧
    calculate_extraction_confidence ticker company_name hype_score span_found ≠ 0.3 ∧
    calculate_extraction_confidence ticker company_name hype_score span_found ≠ 1.0 := by
  obtain ⟨hlo, hhi⟩ := extraction_confidence_preclamp_bounds ticker company_name span_found
  have heq := calculate_extraction_confidence_eq_preclamp ticker company_name hype_score span_found
  refine ⟨hlo, hhi, heq, ?_, ?_⟩
  · rw [heq]; norm_num; linarith
  · rw [heq]; norm_num; linarith

/-- Claim C1: contextual hype inheritance.  Hype below 0.3 yields zero
inherited mentions; hype at least 0.3 with a non-empty post-ticker list
yields exactly one derived mention per post ticker (in order), each with
confidence `min(0.75, h + 0.2)`, the contextual-inheritance method tag
(the code constant `"contextual_inheritance"`, which the spec's data model
labels `contextual-inherited`), hype score `h`, an absent stored span, and
the post's identifier as provenance. -/
theorem C1_contextual_inheritance (post_tickers : List PostTicker) (h : ℚ) (post_reddit_id : String) :
    (h < 0.3 → inherit_tickers_with_context post_tickers h post_reddit_id = []) ∧
    (0.3 ≤ h → post_tickers ≠ [] →
      (inherit_tickers_with_context post_tickers h post_reddit_id).map
          (fun m => m.ticker) = post_tickers.map (fun t => pyUpperStr t.ticker) ∧
      ∀ m ∈ inherit_tickers_with_context post_tickers h post_reddit_id,
        m.confidence = min 0.75 (h + 0.2) ∧
        m.method = "contextual_inheritance" ∧
        m.hype_score = h ∧
        span_to_db m.span = (none, none) ∧
        m.context_post_id = post_reddit_id) := by
  constructor
  · intro hlt
    unfold inherit_tickers_with_context
    rw [if_pos (Or.inr hlt)]
  · intro hge hne
    have hcond : ¬(post_tickers = [] ∨ h < 0.3) := by
      rintro (hc | hc)
      · exact hne hc
      · linarith
    unfold inherit_tickers_with_context
    rw [if_neg hcond]
    constructor
    · rw [List.map_map]; rfl
    · intro m hm
      simp only [List.mem_map] at hm
      obtain ⟨t, ht, rfl⟩ := hm
      exact ⟨rfl, rfl, rfl, rfl, rfl⟩

/-- Witness for C1 at a concrete input. -/
theorem C1_contextual_inheritance_witness :
    (inherit_tickers_with_context [⟨"tsla", 19/20, 9/10, "Tesla Inc."⟩] (1/2) "p1").map
        (fun m => m.ticker) =
      ([⟨"tsla", 19/20, 9/10, "Tesla Inc."⟩] : List PostTicker).map
        (fun t => pyUpperStr t.ticker) ∧
    ∀ m ∈ inherit_tickers_with_context [⟨"tsla", 19/20, 9/10, "Tesla Inc."⟩] (1/2) "p1",
      m.confidence = min 0.75 (1/2 + 0.2) ∧
      m.method = "contextual_inheritance" ∧
      m.hype_score = 1/2 ∧
      span_to_db m.span = (none, none) ∧
      m.context_post_id = "p1" :=
  (C1_contextual_inheritance [⟨"tsla", 19/20, 9/10, "Tesla Inc."⟩] (1/2) "p1").2
    (by norm_num) (by simp)

/-- Claim C3 as stated is false: the inherited confidence can *equal* the
0.75 (contextual) and 0.5 (ancestor) caps — at hype 0.85 the contextual
path yields confidence exactly 0.75, and at parent confidence 0.95 the
ancestor path yields exactly 0.5. -/
theorem C3_counterexample :
    (∃ m ∈ inherit_tickers_with_context [⟨"TSLA", 19/20, 9/10, "Tesla Inc."⟩] (17/20) "p1",
       (0.75 : ℚ) ≤ m.confidence) ∧
    (∃ r ∈ inherit_parent_tickers [⟨"TSLA", 19/20⟩] "p1" "c1",
       (0.5 : ℚ) ≤ r.confidence) := by
  constructor
  · refine ⟨⟨pyUpperStr "TSLA", (-1, -1), min 0.75 (17/20 + 0.2), "contextual_inheritance",
      17/20, "Tesla Inc.", "post_context", "p1"⟩, ?_, ?_⟩
    · unfold inherit_tickers_with_context
      rw [if_neg (by push_neg; exact ⟨by simp, by norm_num⟩)]
      exact List.mem_singleton_self _
    · show (0.75 : ℚ) ≤ min 0.75 (17/20 + 0.2)
      norm_num
  · refine ⟨⟨"comment", "c1", "TSLA", min 0.50 ((19/20 : ℚ) * 0.8), "inherit", "inherited",
      "p1"⟩, ?_, ?_⟩
    · unfold inherit_parent_tickers
      rw [if_neg (by simp)]
      exact List.mem_singleton_self _
    · show (0.5 : ℚ) ≤ min 0.50 ((19/20 : ℚ) * 0.8)
      norm_num

/-- Claim C3 (amended): inheritance never produces a derived mention whose
confidence is strictly greater than 0.75 on the contextual path, or
strictly greater than 0.5 on the ancestor path (both caps are attained). -/
theorem C3_inheritance_caps :
    (∀ (post_tickers : List PostTicker) (h : ℚ) (pid : String),
       ∀ m ∈ inherit_tickers_with_context post_tickers h pid, m.confidence ≤ 0.75) ∧
    (∀ (parents : List ParentMention) (pid cid : String),
       ∀ r ∈ inherit_parent_tickers parents pid cid, r.confidence ≤ 0.5) := by
  constructor
  · intro post_tickers h pid m hm
    unfold inherit_tickers_with_context at hm
    split at hm
    · simp at hm
    · simp only [List.mem_map] at hm
      obtain ⟨t, ht, rfl⟩ := hm
      exact min_le_left (0.75 : ℚ) (h + 0.2)
  · intro parents pid cid r hr
    unfold inherit_parent_tickers at hr
    split at hr
    · simp at hr
    · simp only [List.mem_map] at hr
      obtain ⟨p, hp, rfl⟩ := hr
      exact le_trans (min_le_left (0.50 : ℚ) (p.confidence * 0.8)) (by norm_num)

/-- Witness for the amended C3 at concrete inputs. -/
theorem C3_inheritance_caps_witness :
    InheritedTicker.confidence
        ⟨pyUpperStr "TSLA", (-1, -1), min 0.75 (17/20 + 0.2), "contextual_inheritance",
         17/20, "Tesla Inc.", "post_context", "p1"⟩ ≤ 0.75 ∧
    InheritedRow.confidence
        ⟨"comment", "c1", "TSLA", min 0.50 ((19/20) * 0.8), "inherit", "inherited", "p1"⟩ ≤ 0.5 :=
  ⟨C3_inheritance_caps.1 [⟨"TSLA", 19/20, 9/10, "Tesla Inc."⟩] (17/20) "p1" _
      (by unfold inherit_tickers_with_context
          rw [if_neg (by push_neg; exact ⟨by simp, by norm_num⟩)]
          exact List.mem_singleton_self _),
   C3_inheritance_caps.2 [⟨"TSLA", 19/20⟩] "p1" "c1" _
      (by unfold inherit_parent_tickers
          rw [if_neg (by simp)]
          exact List.mem_singleton_self _)⟩

/-- Claim C6 as stated is false: the guard of `analyze_contextual_hype` is
`len(text.strip()) < 3` — length after trimming leading/trailing
whitespace, not the count of non-whitespace characters.  The text `"a b"`
has 2 non-whitespace characters, yet the backend is invoked (1 call) and
its score is returned. -/
theorem C6_counterexample :
    nonWhitespaceCount "a b" < 3 ∧
    analyze_contextual_hype (fun _ => HypeAttempt.parsed (9/10)) "a b" = (9/10, 1) := by
  constructor
  · decide
  · unfold analyze_contextual_hype
    rw [if_neg (by decide)]
    show (max 0 (min 1 ((9:ℚ)/10)), 1) = ((9:ℚ)/10, 1)
    norm_num

/-- Claim C6 (amended): for every input text whose length after stripping
leading and trailing whitespace is fewer than 3, the hype analyzer returns
0.0 without invoking the backend (zero calls), for every backend. -/
theorem C6_short_circuit (backend : ℕ → HypeAttempt) (text : String)
    (h : (pyStrip text).length < 3) :
    analyze_contextual_hype backend text = (0, 0) := by
  unfold analyze_contextual_hype
  rw [if_pos (Or.inr h)]

/-- Witness for the amended C6 at a concrete input. -/
theorem C6_short_circuit_witness :
    analyze_contextual_hype (fun _ => HypeAttempt.parsed 1) "ab" = (0, 0) :=
  C6_short_circuit (fun _ => HypeAttempt.parsed 1) "ab" (by decide)

/-- Lookup after an `aggUpdate` write: if the key was present, the lookup
returns the new row. -/
theorem aggLookup_aggUpdate (table : List TickerRow) (t : String) (r : TickerRow)
    (hr : r.ticker = t) (hs : (aggLookup table t).isSome) :
    aggLookup (aggUpdate table t r) t = some r := by
  induction table with
  | nil => simp [aggLookup] at hs
  | cons x xs ih =>
    have hmap : aggUpdate (x :: xs) t r = (if x.ticker == t then r else x) :: aggUpdate xs t r := rfl
    by_cases hx : x.ticker = t
    · rw [hmap, if_pos (beq_iff_eq.mpr hx)]
      show List.find? (fun a => a.ticker == t) (r :: aggUpdate xs t r) = some r
      simp only [List.find?, beq_iff_eq.mpr hr]
    · have hpx : (x.ticker == t) = false := beq_eq_false_iff_ne.mpr hx
      rw [hmap, if_neg (by simp [hpx])]
      show List.find? (fun a => a.ticker == t) (x :: aggUpdate xs t r) = some r
      simp only [List.find?, hpx]
      apply ih
      have hs2 := hs
      unfold aggLookup at hs2
      simp only [List.find?, hpx] at hs2
      exact hs2

/-- Characterization of one aggregation step on an existing row. -/
theorem update_step_existing (kind : String) (table : List TickerRow)
    (md : MentionData) (row : TickerRow)
    (hne : pyUpperStr md.ticker ≠ "")
    (hlk : aggLookup table (pyUpperStr md.ticker) = some row) :
    aggLookup (update_ticker_aggregation_step kind table md) (pyUpperStr md.ticker) =
      some { ticker := pyUpperStr md.ticker
             company_name := if md.company_name ≠ "" then md.company_name else row.company_name
             total_mentions := row.total_mentions + 1
             total_posts := row.total_posts + (if kind = "post" then 1 else 0)
             total_comments := row.total_comments + (if kind = "comment" then 1 else 0)
             avg_hype_score := round2 ((row.avg_hype_score * (row.total_mentions : ℚ) + md.hype_score)
               / ((row.total_mentions + 1 : ℤ) : ℚ))
             max_hype_score := round2 (max row.max_hype_score md.hype_score)
             last_mentioned_at := "NOW()" } := by
  simp only [update_ticker_aggregation_step]
  rw [if_neg hne, hlk]
  exact aggLookup_aggUpdate table (pyUpperStr md.ticker) _ rfl (by rw [hlk]; rfl)

/-- Claim C8 as stated is false: the stored running average is the
*rounded* value `round(new_avg, 2)`, not the exact quotient.  With an
existing row at average 0 over 2 mentions and a new mention with hype 0.1,
the code stores 0.03, but `(0 * 2 + 0.1) / 3 = 1/30 ≠ 0.03`. -/
theorem C8_counterexample :
    aggLookup (update_ticker_aggregation_step "comment"
        [⟨"TSLA", "", 2, 0, 2, 0, 0, "NOW()"⟩] ⟨"TSLA", 1/10, ""⟩) "TSLA"
      = some ⟨"TSLA", "", 3, 0, 3, 3/100, 1/10, "NOW()"⟩ ∧
    (3/100 : ℚ) ≠ ((0 : ℚ) * 2 + 1/10) / (2 + 1) := by
  constructor
  · simp [update_ticker_aggregation_step, aggLookup, aggUpdate,
          show pyUpperStr "TSLA" = "TSLA" from by decide, List.find?]
    norm_num [round2, roundHalfEven]
  · norm_num

/-- Claim C8 (amended): for every existing per-ticker row and every new
mention, the stored running average is `round((old_avg * old_count +
new_hype) / new_count, 2)` and the stored max is `round(max(old_max,
new_hype), 2)` (two-decimal rounding); ingesting hype scores `[0.8, 0.6]`
for one ticker from an empty table yields average 0.70 and max 0.8. -/
theorem C8_aggregator_update :
    (∀ (kind : String) (table : List TickerRow) (md : MentionData) (row : TickerRow),
       pyUpperStr md.ticker ≠ "" →
       aggLookup table (pyUpperStr md.ticker) = some row →
       ∃ row', aggLookup (update_ticker_aggregation_step kind table md)
           (pyUpperStr md.ticker) = some row' ∧
         row'.avg_hype_score =
           round2 ((row.avg_hype_score * (row.total_mentions : ℚ) + md.hype_score) /
             ((row.total_mentions : ℚ) + 1)) ∧
         row'.max_hype_score = round2 (max row.max_hype_score md.hype_score)) ∧
    update_ticker_aggregation "comment" [] [⟨"TSLA", 4/5, ""⟩, ⟨"TSLA", 3/5, ""⟩]
      = [⟨"TSLA", "", 2, 0, 2, 7/10, 4/5, "NOW()"⟩] := by
  constructor
  · intro kind table md row hne hlk
    refine ⟨_, update_step_existing kind table md row hne hlk, ?_, rfl⟩
    show round2 _ = round2 _
    congr 1
    push_cast
    ring
  · have h1 : update_ticker_aggregation_step "comment" [] ⟨"TSLA", 4/5, ""⟩ =
        [⟨"TSLA", "", 1, 0, 1, 4/5, 4/5, "NOW()"⟩] := by
      simp [update_ticker_aggregation_step, aggLookup,
            show pyUpperStr "TSLA" = "TSLA" from by decide]
      norm_num [round2, roundHalfEven]
    show update_ticker_aggregation_step "comment"
        (update_ticker_aggregation_step "comment" [] ⟨"TSLA", 4/5, ""⟩) ⟨"TSLA", 3/5, ""⟩ = _
    rw [h1]
    simp [update_ticker_aggregation_step, aggLookup, aggUpdate,
          show pyUpperStr "TSLA" = "TSLA" from by decide, List.find?]
    norm_num [round2, roundHalfEven]

/-- Witness for the amended C8 at a concrete input. -/
theorem C8_aggregator_update_witness :
    ∃ row', aggLookup (update_ticker_aggregation_step "comment"
        [⟨"TSLA", "", 1, 0, 1, 4/5, 4/5, "NOW()"⟩] ⟨"TSLA", 3/5, ""⟩)
        (pyUpperStr "TSLA") = some row' ∧
      row'.avg_hype_score = round2 (((4/5 : ℚ) * (((1 : ℤ) : ℚ)) + 3/5) / ((((1 : ℤ) : ℚ)) + 1)) ∧
      row'.max_hype_score = round2 (max (4/5 : ℚ) (3/5)) :=
  C8_aggregator_update.1 "comment" [⟨"TSLA", "", 1, 0, 1, 4/5, 4/5, "NOW()"⟩]
    ⟨"TSLA", 3/5, ""⟩ ⟨"TSLA", "", 1, 0, 1, 4/5, 4/5, "NOW()"⟩
    (by decide)
    (by simp [aggLookup, show pyUpperStr "TSLA" = "TSLA" from by decide, List.find?])

/-- Claim C9 as stated is false: a row that already has the non-empty
company name "Tesla Inc." is overwritten by a later mention carrying
"Other Corp" — the code's `company_name or current.get(...)` is
last-writer-wins for non-empty incoming names, not first-writer-wins. -/
theorem C9_counterexample :
    aggLookup (update_ticker_aggregation_step "comment"
        [⟨"TSLA", "Tesla Inc.", 1, 0, 1, 1/2, 1/2, "NOW()"⟩] ⟨"TSLA", 1/2, "Other Corp"⟩)
        "TSLA"
      = some ⟨"TSLA", "Other Corp", 2, 0, 2, 1/2, 1/2, "NOW()"⟩ ∧
    ("Tesla Inc." : String) ≠ "" ∧ ("Other Corp" : String) ≠ "Tesla Inc." := by
  refine ⟨?_, by decide, by decide⟩
  simp [update_ticker_aggregation_step, aggLookup, aggUpdate,
        show pyUpperStr "TSLA" = "TSLA" from by decide, List.find?]
  norm_num [round2, roundHalfEven]

/-- Claim C9 (amended): on an update of an existing row, the stored company
name becomes the new mention's company name whenever that is non-empty, and
only keeps the previously stored name when the new mention's company name
is empty (last-writer-wins for non-empty names). -/
theorem C9_company_name_overwrite (kind : String) (table : List TickerRow)
    (md : MentionData) (row : TickerRow)
    (hne : pyUpperStr md.ticker ≠ "")
    (hlk : aggLookup table (pyUpperStr md.ticker) = some row) :
    ∃ row', aggLookup (update_ticker_aggregation_step kind table md)
        (pyUpperStr md.ticker) = some row' ∧
      row'.company_name = (if md.company_name ≠ "" then md.company_name else row.company_name) :=
  ⟨_, update_step_existing kind table md row hne hlk, rfl⟩

/-- Witness for the amended C9 at a concrete input. -/
theorem C9_company_name_overwrite_witness :
    ∃ row', aggLookup (update_ticker_aggregation_step "comment"
        [⟨"TSLA", "Tesla Inc.", 1, 0, 1, 1/2, 1/2, "NOW()"⟩] ⟨"TSLA", 1/2, "Other Corp"⟩)
        (pyUpperStr "TSLA") = some row' ∧
      row'.company_name =
        (if ("Other Corp" : String) ≠ "" then "Other Corp" else "Tesla Inc.") :=
  C9_company_name_overwrite "comment" [⟨"TSLA", "Tesla Inc.", 1, 0, 1, 1/2, 1/2, "NOW()"⟩]
    ⟨"TSLA", 1/2, "Other Corp"⟩ ⟨"TSLA", "Tesla Inc.", 1, 0, 1, 1/2, 1/2, "NOW()"⟩
    (by decide)
    (by simp [aggLookup, show pyUpperStr "TSLA" = "TSLA" from by decide, List.find?])

/-- `find?` for the key of the inserted item after one `updBest` step. -/
theorem find?_updBest_self (acc : List TickerItem) (it : TickerItem) :
    (updBest acc it).find? (fun x => x.ticker == it.ticker) =
      some (match acc.find? (fun x => x.ticker == it.ticker) with
            | none => it
            | some b => if it.confidence > b.confidence then it else b) := by
  induction acc with
  | nil => simp [updBest, List.find?]
  | cons b rest ih =>
    simp only [updBest]
    by_cases hbt : b.ticker = it.ticker
    · rw [if_pos hbt]
      have hpb : (b.ticker == it.ticker) = true := beq_iff_eq.mpr hbt
      by_cases hc : it.confidence > b.confidence
      · rw [if_pos hc]
        simp only [List.find?, beq_iff_eq.mpr (rfl : it.ticker = it.ticker), hpb, hc, ite_true]
      · rw [if_neg hc]
        all_goals simp only [List.find?, hpb, hc, ite_false]
    · rw [if_neg hbt]
      have hpb : (b.ticker == it.ticker) = false := beq_eq_false_iff_ne.mpr hbt
      simp only [List.find?, hpb]
      exact ih

theorem find?_updBest_other (acc : List TickerItem) (it : TickerItem) (t : String)
    (hne : it.ticker ≠ t) :
    (updBest acc it).find? (fun x => x.ticker == t) = acc.find? (fun x => x.ticker == t) := by
  induction acc with
  | nil => simp [updBest, List.find?, beq_eq_false_iff_ne.mpr hne]
  | cons b rest ih =>
    simp only [updBest]
    by_cases hbt : b.ticker = it.ticker
    · rw [if_pos hbt]
      have hbne : (b.ticker == t) = false := by
        refine beq_eq_false_iff_ne.mpr ?_
        rw [hbt]; exact hne
      by_cases hc : it.confidence > b.confidence
      · rw [if_pos hc]
        simp only [List.find?, beq_eq_false_iff_ne.mpr hne, hbne]
      · rw [if_neg hc]
    · rw [if_neg hbt]
      by_cases hbt2 : b.ticker = t
      · simp only [List.find?, beq_iff_eq.mpr hbt2]
      · simp only [List.find?, beq_eq_false_iff_ne.mpr hbt2]
        exact ih

theorem find?_foldl_updBest (l : List TickerItem) (acc : List TickerItem) (t : String) :
    (l.foldl updBest acc).find? (fun x => x.ticker == t) =
      match acc.find? (fun x => x.ticker == t), l.filter (fun x => x.ticker == t) with
      | none, [] => none
      | none, x :: xs => some (best1 x xs)
      | some b, occs => some (best1 b occs) := by
  induction l generalizing acc with
  | nil =>
    cases h : acc.find? (fun x => x.ticker == t) <;> simp [h, best1, List.filter]
  | cons it rest ih =>
    rw [List.foldl_cons, ih (updBest acc it)]
    by_cases hit : it.ticker = t
    · have hfilter : (it :: rest).filter (fun x => x.ticker == t) =
          it :: rest.filter (fun x => x.ticker == t) := by
        simp [List.filter, beq_iff_eq.mpr hit]
      have hself := find?_updBest_self acc it
      rw [hit] at hself
      rw [hself, hfilter]
      cases hacc : acc.find? (fun x => x.ticker == t) with
      | none => rfl
      | some b => rfl
    · have hfilter : (it :: rest).filter (fun x => x.ticker == t) =
          rest.filter (fun x => x.ticker == t) := by
        simp [List.filter, beq_eq_false_iff_ne.mpr hit]
      rw [find?_updBest_other acc it t hit, hfilter]

theorem best1_mem (b : TickerItem) (l : List TickerItem) :
    best1 b l = b ∨ best1 b l ∈ l := by
  induction l generalizing b with
  | nil => left; rfl
  | cons x xs ih =>
    rw [best1]
    rcases ih (if x.confidence > b.confidence then x else b) with h | h
    · rw [h]
      by_cases hc : x.confidence > b.confidence
      · right; rw [if_pos hc]; exact List.mem_cons_self x xs
      · left; rw [if_neg hc]
    · right; exact List.mem_cons_of_mem x h

theorem best1_le (b : TickerItem) (l : List TickerItem) :
    b.confidence ≤ (best1 b l).confidence ∧
    ∀ x ∈ l, x.confidence ≤ (best1 b l).confidence := by
  induction l generalizing b with
  | nil => exact ⟨le_refl _, by simp⟩
  | cons x xs ih =>
    obtain ⟨h1, h2⟩ := ih (if x.confidence > b.confidence then x else b)
    rw [best1]
    constructor
    · refine le_trans ?_ h1
      by_cases hc : x.confidence > b.confidence
      · rw [if_pos hc]; exact le_of_lt hc
      · rw [if_neg hc]
    · intro y hy
      rcases List.mem_cons.1 hy with hy | hy
      · subst hy
        refine le_trans ?_ h1
        by_cases hc : y.confidence > b.confidence
        · rw [if_pos hc]
        · rw [if_neg hc]; exact le_of_not_lt hc
      · exact h2 y hy

theorem updBest_map_ticker (acc : List TickerItem) (it : TickerItem) :
    (updBest acc it).map (fun x => x.ticker) =
      if it.ticker ∈ acc.map (fun x => x.ticker) then acc.map (fun x => x.ticker)
      else acc.map (fun x => x.ticker) ++ [it.ticker] := by
  induction acc with
  | nil => simp [updBest]
  | cons b rest ih =>
    simp only [updBest]
    by_cases hbt : b.ticker = it.ticker
    · rw [if_pos hbt]
      have hmem : it.ticker ∈ (b :: rest).map (fun x => x.ticker) := by
        simp [List.mem_map]
        exact Or.inl hbt.symm
      rw [if_pos hmem]
      by_cases hc : it.confidence > b.confidence
      · rw [if_pos hc]; simp [hbt]
      · rw [if_neg hc]
    · rw [if_neg hbt]
      simp only [List.map_cons, ih]
      by_cases hmem : it.ticker ∈ rest.map (fun x => x.ticker)
      · rw [if_pos hmem, if_pos (by simp [hmem])]
      · rw [if_neg hmem, if_neg (by simp [hmem]; exact fun he => hbt he.symm)]
        rfl

theorem nodup_keys_foldl_updBest (l : List TickerItem) (acc : List TickerItem)
    (hacc : (acc.map (fun x => x.ticker)).Nodup) :
    ((l.foldl updBest acc).map (fun x => x.ticker)).Nodup := by
  induction l generalizing acc with
  | nil => exact hacc
  | cons it rest ih =>
    rw [List.foldl_cons]
    apply ih
    rw [updBest_map_ticker]
    by_cases hmem : it.ticker ∈ acc.map (fun x => x.ticker)
    · rwa [if_pos hmem]
    · rw [if_neg hmem]
      simp [List.nodup_append, hacc, hmem]

theorem filter_eq_of_nodup_keys (l : List TickerItem) (t : String)
    (h : (l.map (fun x => x.ticker)).Nodup) :
    l.filter (fun x => x.ticker == t) =
      match l.find? (fun x => x.ticker == t) with
      | none => []
      | some m => [m] := by
  induction l with
  | nil => simp [List.filter, List.find?]
  | cons x xs ih =>
    simp only [List.map_cons, List.nodup_cons] at h
    obtain ⟨hx, hxs⟩ := h
    by_cases hxt : x.ticker = t
    · have hfil : xs.filter (fun a => a.ticker == t) = [] := by
        apply List.filter_eq_nil_iff.mpr
        intro a ha hcontra
        apply hx
        rw [List.mem_map]
        refine ⟨a, ha, ?_⟩
        rw [beq_iff_eq.1 hcontra, hxt]
      simp [List.filter, List.find?, beq_iff_eq.mpr hxt, hfil]
    · simp only [List.filter, List.find?, beq_eq_false_iff_ne.mpr hxt]
      exact ih hxs

/-- Claim C2: collapse-to-best.  For every ticker-item list and every
ticker occurring in it, the collapsed output of `db.store_tickers_to_db`
contains exactly one item for that ticker; that item is one of the input
occurrences and its confidence is maximal among them (so with pairwise
distinct confidences it is the highest-confidence occurrence); and every
ticker key occurs at most once in the output. -/
theorem C2_collapse_to_best (l : List TickerItem) (t : String)
    (hocc : l.filter (fun x => x.ticker == t) ≠ []) :
    (∀ s : String, ((collapse_to_best l).filter (fun x => x.ticker == s)).length ≤ 1) ∧
    ∃ m, (collapse_to_best l).filter (fun x => x.ticker == t) = [m] ∧
      m ∈ l.filter (fun x => x.ticker == t) ∧
      ∀ x ∈ l.filter (fun x => x.ticker == t), x.confidence ≤ m.confidence := by
  have hnodup : ((collapse_to_best l).map (fun x => x.ticker)).Nodup :=
    nodup_keys_foldl_updBest l [] (by simp)
  constructor
  · intro s
    rw [filter_eq_of_nodup_keys _ s hnodup]
    cases (collapse_to_best l).find? (fun x => x.ticker == s) <;> simp
  · cases hfil : l.filter (fun x => x.ticker == t) with
    | nil => exact absurd hfil hocc
    | cons x xs =>
      have hfind : (collapse_to_best l).find? (fun a => a.ticker == t) = some (best1 x xs) := by
        have := find?_foldl_updBest l [] t
        rw [hfil] at this
        simpa [List.find?, collapse_to_best] using this
      refine ⟨best1 x xs, ?_, ?_, ?_⟩
      · rw [filter_eq_of_nodup_keys _ t hnodup, hfind]
      · rcases best1_mem x xs with h | h
        · rw [h]; exact List.mem_cons_self x xs
        · exact List.mem_cons_of_mem x h
      · intro y hy
        obtain ⟨h1, h2⟩ := best1_le x xs
        rcases List.mem_cons.1 hy with hy | hy
        · subst hy; exact h1
        · exact h2 y hy

/-- Witness for C2 at a concrete input with two occurrences of one ticker. -/
theorem C2_collapse_to_best_witness :
    (∀ s : String, ((collapse_to_best [⟨"TSLA", (0, 4), 1/2, "llm", 0, ""⟩,
        ⟨"TSLA", (10, 14), 9/10, "llm", 0, ""⟩]).filter (fun x => x.ticker == s)).length ≤ 1) ∧
    ∃ m, (collapse_to_best [⟨"TSLA", (0, 4), 1/2, "llm", 0, ""⟩,
        ⟨"TSLA", (10, 14), 9/10, "llm", 0, ""⟩]).filter (fun x => x.ticker == "TSLA") = [m] ∧
      m ∈ [(⟨"TSLA", (0, 4), 1/2, "llm", 0, ""⟩ : TickerItem),
        ⟨"TSLA", (10, 14), 9/10, "llm", 0, ""⟩].filter (fun x => x.ticker == "TSLA") ∧
      ∀ x ∈ [(⟨"TSLA", (0, 4), 1/2, "llm", 0, ""⟩ : TickerItem),
        ⟨"TSLA", (10, 14), 9/10, "llm", 0, ""⟩].filter (fun x => x.ticker == "TSLA"),
        x.confidence ≤ m.confidence :=
  C2_collapse_to_best [⟨"TSLA", (0, 4), 1/2, "llm", 0, ""⟩,
    ⟨"TSLA", (10, 14), 9/10, "llm", 0, ""⟩] "TSLA" (by decide)

/-- Soundness of the leftmost-index search. -/
theorem firstIdxAux_eq_some {p : ℕ → Bool} (fuel : ℕ) :
    ∀ (i j : ℕ), firstIdxAux p fuel i = some j →
      p j = true ∧ i ≤ j ∧ ∀ k, i ≤ k → k < j → p k = false := by
  induction fuel with
  | zero => intro i j h; simp [firstIdxAux] at h
  | succ n ih =>
    intro i j h
    rw [firstIdxAux] at h
    by_cases hp : p i = true
    · rw [if_pos hp] at h
      cases h
      exact ⟨hp, le_refl _, fun k hk1 hk2 => absurd (lt_of_le_of_lt hk1 hk2) (lt_irrefl _)⟩
    · rw [if_neg hp] at h
      obtain ⟨h1, h2, h3⟩ := ih (i + 1) j h
      refine ⟨h1, by omega, fun k hk1 hk2 => ?_⟩
      rcases eq_or_lt_of_le hk1 with hk | hk
      · subst hk; exact Bool.eq_false_iff.mpr hp
      · exact h3 k (by omega) hk2

theorem firstIdxAux_eq_none {p : ℕ → Bool} (fuel : ℕ) :
    ∀ i, firstIdxAux p fuel i = none → ∀ k, i ≤ k → k < i + fuel → p k = false := by
  induction fuel with
  | zero => intro i _ k hk1 hk2; omega
  | succ n ih =>
    intro i h k hk1 hk2
    rw [firstIdxAux] at h
    by_cases hp : p i = true
    · rw [if_pos hp] at h; cases h
    · rw [if_neg hp] at h
      rcases eq_or_lt_of_le hk1 with hk | hk
      · subst hk; exact Bool.eq_false_iff.mpr hp
      · exact ih (i + 1) h k (by omega) (by omega)

theorem firstIdx_eq_some {p : ℕ → Bool} {n j : ℕ} (h : firstIdx p n = some j) :
    p j = true ∧ ∀ k, k < j → p k = false := by
  obtain ⟨h1, _, h3⟩ := firstIdxAux_eq_some (n + 1) 0 j h
  exact ⟨h1, fun k hk => h3 k (Nat.zero_le k) hk⟩

theorem firstIdx_eq_none {p : ℕ → Bool} {n : ℕ} (h : firstIdx p n = none) :
    ∀ k, k ≤ n → p k = false := by
  intro k hk
  exact firstIdxAux_eq_none (n + 1) 0 h k (Nat.zero_le k) (by omega)

theorem firstIdx_eq_none_of_all {p : ℕ → Bool} {n : ℕ} (h : ∀ i, p i = false) :
    firstIdx p n = none := by
  cases hf : firstIdx p n with
  | none => rfl
  | some j => exact absurd (firstIdx_eq_some hf).1 (by simp [h j])

theorem firstIdx_exists {p : ℕ → Bool} {n i : ℕ} (hi : i ≤ n) (hp : p i = true) :
    ∃ j, firstIdx p n = some j := by
  cases hf : firstIdx p n with
  | some j => exact ⟨j, rfl⟩
  | none => exact absurd hp (by simp [firstIdx_eq_none hf i hi])

theorem substAt_le {T K : List Char} {i : ℕ} (h : substAt T K i = true) :
    i + K.length ≤ T.length := by
  simp only [substAt, Bool.and_eq_true, decide_eq_true_eq] at h
  exact h.1

theorem exactSubstAt_le {T K : List Char} {i : ℕ} (h : exactSubstAt T K i = true) :
    i + K.length ≤ T.length := by
  simp only [exactSubstAt, Bool.and_eq_true, decide_eq_true_eq] at h
  exact h.1

theorem dollarMatchAt_lt {T K : List Char} {i : ℕ} (h : dollarMatchAt T K i = true) :
    i < T.length := by
  simp only [dollarMatchAt, Bool.and_eq_true, beq_iff_eq] at h
  by_contra hlt
  push_neg at hlt
  rw [List.getElem?_eq_none hlt] at h
  exact Option.noConfusion h.1.1

theorem wordMatchAt_le {T K : List Char} {i : ℕ} (h : wordMatchAt T K i = true) :
    i ≤ T.length := by
  simp only [wordMatchAt, Bool.and_eq_true] at h
  have := substAt_le h.1.2
  omega

theorem string_ne_empty_data {s : String} (h : s.data ≠ []) : s ≠ "" := by
  intro he
  subst he
  exact h rfl

theorem data_ne_of_ne_empty {s : String} (h : s ≠ "") : s.data ≠ [] := by
  intro hd
  apply h
  cases s with
  | mk d =>
    rw [show d = [] from hd]

/-- Claim C4: Span Finder priority.  If a word-bounded `$`-prefixed match
exists, `find_ticker_span` returns the leftmost such span, which starts at
a literal `$` (never a plain occurrence); failing that, the leftmost
word-bounded bare match; failing that, the first case-insensitive substring
occurrence; and the sentinel `(-1, -1)` when no strategy succeeds. -/
theorem C4_find_ticker_span (text ticker : String) :
    (ticker ≠ "" → (∃ i, dollarMatchAt text.data ticker.data i = true) →
      ∃ s : ℕ, dollarMatchAt text.data ticker.data s = true ∧
        (∀ j, j < s → dollarMatchAt text.data ticker.data j = false) ∧
        text.data[s]? = some '$' ∧
        find_ticker_span text ticker =
          ((s : Int), (s : Int) + 1 + (ticker.data.length : Int))) ∧
    (ticker ≠ "" → (∀ i, dollarMatchAt text.data ticker.data i = false) →
      (∃ i, wordMatchAt text.data ticker.data i = true) →
      ∃ s : ℕ, wordMatchAt text.data ticker.data s = true ∧
        (∀ j, j < s → wordMatchAt text.data ticker.data j = false) ∧
        find_ticker_span text ticker = ((s : Int), (s : Int) + (ticker.data.length : Int))) ∧
    (ticker ≠ "" → (∀ i, dollarMatchAt text.data ticker.data i = false) →
      (∀ i, wordMatchAt text.data ticker.data i = false) →
      (∃ i, exactSubstAt (text.data.map Char.toUpper) (ticker.data.map Char.toUpper) i = true) →
      ∃ s : ℕ, exactSubstAt (text.data.map Char.toUpper) (ticker.data.map Char.toUpper) s = true ∧
        (∀ j, j < s →
          exactSubstAt (text.data.map Char.toUpper) (ticker.data.map Char.toUpper) j = false) ∧
        find_ticker_span text ticker = ((s : Int), (s : Int) + (ticker.data.length : Int))) ∧
    ((∀ i, dollarMatchAt text.data ticker.data i = false) →
      (∀ i, wordMatchAt text.data ticker.data i = false) →
      (∀ i, exactSubstAt (text.data.map Char.toUpper) (ticker.data.map Char.toUpper) i = false) →
      find_ticker_span text ticker = (-1, -1)) := by
  refine ⟨?_, ?_, ?_, ?_⟩
  · rintro htick ⟨i, hi⟩
    have hmem : i < text.data.length := dollarMatchAt_lt hi
    have htext : text ≠ "" := string_ne_empty_data (by
      intro he; rw [he] at hmem; simp at hmem)
    have hguard : ¬(text = "" ∨ ticker = "") := by
      rintro (hc | hc)
      · exact htext hc
      · exact htick hc
    obtain ⟨j, hj⟩ := firstIdx_exists (le_of_lt hmem) hi
    obtain ⟨hpj, hmin⟩ := firstIdx_eq_some hj
    refine ⟨j, hpj, hmin, ?_, ?_⟩
    · simp only [dollarMatchAt, Bool.and_eq_true, beq_iff_eq] at hpj
      exact hpj.1.1
    · simp only [find_ticker_span]
      rw [if_neg hguard, hj]
  · rintro htick hdollar ⟨i, hi⟩
    have hile : i ≤ text.data.length := wordMatchAt_le hi
    have hKlen : 1 ≤ ticker.data.length :=
      List.length_pos.mpr (data_ne_of_ne_empty htick)
    have hsub : substAt text.data ticker.data i = true := by
      have hi2 := hi
      simp only [wordMatchAt, Bool.and_eq_true] at hi2
      exact hi2.1.2
    have hTlen : 1 ≤ text.data.length := by
      have h2 := substAt_le hsub
      omega
    have htext : text ≠ "" := string_ne_empty_data (by
      intro he; rw [he] at hTlen; simp at hTlen)
    have hguard : ¬(text = "" ∨ ticker = "") := by
      rintro (hc | hc)
      · exact htext hc
      · exact htick hc
    obtain ⟨j, hj⟩ := firstIdx_exists hile hi
    obtain ⟨hpj, hmin⟩ := firstIdx_eq_some hj
    refine ⟨j, hpj, hmin, ?_⟩
    simp only [find_ticker_span]
    rw [if_neg hguard, firstIdx_eq_none_of_all hdollar, hj]
  · rintro htick hdollar hword ⟨i, hi⟩
    have hile : i ≤ (text.data.map Char.toUpper).length :=
      le_trans (Nat.le_add_right _ _) (exactSubstAt_le hi)
    have hKlen : 1 ≤ ticker.data.length :=
      List.length_pos.mpr (data_ne_of_ne_empty htick)
    have hTlen : 1 ≤ text.data.length := by
      have h2 := exactSubstAt_le hi
      rw [List.length_map, List.length_map] at h2
      omega
    have htext : text ≠ "" := string_ne_empty_data (by
      intro he; rw [he] at hTlen; simp at hTlen)
    have hguard : ¬(text = "" ∨ ticker = "") := by
      rintro (hc | hc)
      · exact htext hc
      · exact htick hc
    obtain ⟨j, hj⟩ := firstIdx_exists hile hi
    obtain ⟨hpj, hmin⟩ := firstIdx_eq_some hj
    refine ⟨j, hpj, hmin, ?_⟩
    simp only [find_ticker_span, pyStrFind]
    rw [if_neg hguard, firstIdx_eq_none_of_all hdollar, firstIdx_eq_none_of_all hword, hj]
  · intro hdollar hword hsub
    by_cases htext : text = ""
    · simp only [find_ticker_span]
      rw [if_pos (Or.inl htext)]
    · by_cases htick : ticker = ""
      · simp only [find_ticker_span]
        rw [if_pos (Or.inr htick)]
      · simp only [find_ticker_span, pyStrFind]
        rw [if_neg (by rintro (hc | hc); exacts [htext hc, htick hc]),
            firstIdx_eq_none_of_all hdollar, firstIdx_eq_none_of_all hword,
            firstIdx_eq_none_of_all hsub]


/-- Witness for C4 on a text containing both `$TSLA` and a plain `TSLA`. -/
theorem C4_find_ticker_span_witness :
    ∃ s : ℕ, dollarMatchAt "see $TSLA and TSLA!".data "TSLA".data s = true ∧
      (∀ j, j < s → dollarMatchAt "see $TSLA and TSLA!".data "TSLA".data j = false) ∧
      "see $TSLA and TSLA!".data[s]? = some '$' ∧
      find_ticker_span "see $TSLA and TSLA!" "TSLA" =
        ((s : Int), (s : Int) + 1 + ("TSLA".data.length : Int)) :=
  (C4_find_ticker_span "see $TSLA and TSLA!" "TSLA").1 (by decide) ⟨4, by decide⟩

/-- Claim C7 as stated is false: `llm_extractor` can raise past its
boundary.  If the backend's response is the string `"1"` — valid JSON
denoting a number — cleaning and parsing succeed, and the result-conversion
code then calls `.get` on a non-dict, raising `AttributeError` (the call is
outside the retry loop's `try`).  The model returns an error value instead
of a list. -/
theorem C7_counterexample :
    isErr (llm_extractor jsonParseStub (fun _ => some "1") "some text") = true := rfl

/-- An absent `tickers` key (defaulted to `[]`) or an empty `tickers`
array converts to the empty result list. -/
theorem llm_build_results_empty (text : String) (fs : List (String × Json))
    (h : jlookup fs "tickers" = none ∨ jlookup fs "tickers" = some (.arr [])) :
    llm_build_results text (.obj fs) = .ok [] := by
  rcases h with h | h <;>
    simp [llm_build_results, jget, h, pyIter, List.mapM, List.mapM.loop, Option.getD,
          bind, Except.bind, pure, Except.pure]

/-- Some ill-shaped `tickers` values also convert to the empty result list
without raising: Python iteration over the empty string or the empty dict
yields zero items, so the result loop never runs.  The well-shapedness
condition of `responseOK` is thus sufficient for not raising, not
necessary. -/
theorem llm_build_results_empty_iteration (text : String) (fs : List (String × Json))
    (h : jlookup fs "tickers" = some (.str "") ∨ jlookup fs "tickers" = some (.obj [])) :
    llm_build_results text (.obj fs) = .ok [] := by
  rcases h with h | h <;>
    simp [llm_build_results, jget, h, pyIter, List.mapM, List.mapM.loop, Option.getD,
          bind, Except.bind, pure, Except.pure]

/-- An error-free `Except` computation yields a value. -/
theorem exists_ok_of_not_isErr {ε α : Type} {e : Except ε α} (h : isErr e = false) :
    ∃ r, e = .ok r := by
  cases e with
  | ok r => exact ⟨r, rfl⟩
  | error _ => simp [isErr] at h

theorem bind_ok {ε α β : Type} (a : α) (f : α → Except ε β) :
    (Except.ok a >>= f) = f a := rfl

theorem isErr_bind_pure {ε α β : Type} (e : Except ε α) (f : α → β) :
    isErr (e >>= fun a => pure (f a)) = isErr e := by
  cases e <;> simp [isErr, bind, Except.bind, pure, Except.pure]

theorem py_conf_ok (sym : String) (w : Json) (sf : Bool)
    (h : (jsonIsStr w || !pyTruthy w) = true) :
    isErr (py_extraction_confidence sym w sf) = false := by
  cases w <;> simp_all [py_extraction_confidence, pyTruthy, jsonIsStr, isErr]

theorem llm_ticker_result_ok (text : String) (hype : Json) (t : Json)
    (h : tickerEntryOK t = true) : isErr (llm_ticker_result text hype t) = false := by
  cases t with
  | obj fs =>
    simp only [tickerEntryOK, Bool.and_eq_true] at h
    obtain ⟨h1, h2⟩ := h
    have hsymbol : ∃ s : String, jget (Json.obj fs) "symbol" (.str "") = .ok (.str s) := by
      cases hsym : jlookup fs "symbol" with
      | none => exact ⟨"", by simp [jget, hsym]⟩
      | some v =>
        rw [hsym] at h1
        cases v with
        | str s => exact ⟨s, by simp [jget, hsym]⟩
        | null => simp [jsonIsStr] at h1
        | bool b => simp [jsonIsStr] at h1
        | num q => simp [jsonIsStr] at h1
        | arr xs => simp [jsonIsStr] at h1
        | obj fs2 => simp [jsonIsStr] at h1
    have hnameok : ∃ w, jget (Json.obj fs) "name" (.str "") = .ok w ∧
        (jsonIsStr w || !pyTruthy w) = true := by
      cases hname : jlookup fs "name" with
      | none => exact ⟨.str "", by simp [jget, hname], by simp [jsonIsStr]⟩
      | some w =>
        rw [hname] at h2
        exact ⟨w, by simp [jget, hname], h2⟩
    obtain ⟨s, hs⟩ := hsymbol
    obtain ⟨w, hw, hwok⟩ := hnameok
    simp only [llm_ticker_result, hs, hw, pyUpper, bind_ok]
    rw [isErr_bind_pure]
    exact py_conf_ok _ w _ hwok
  | null => simp [tickerEntryOK] at h
  | bool b => simp [tickerEntryOK] at h
  | num q => simp [tickerEntryOK] at h
  | str s2 => simp [tickerEntryOK] at h
  | arr xs => simp [tickerEntryOK] at h

theorem mapM_llm_ok (text : String) (hype : Json) (ts : List Json)
    (h : ∀ t ∈ ts, tickerEntryOK t = true) :
    ∃ rs, ts.mapM (llm_ticker_result text hype) = Except.ok rs := by
  induction ts with
  | nil => exact ⟨[], rfl⟩
  | cons a as ih =>
    obtain ⟨r, hr⟩ := exists_ok_of_not_isErr
      (llm_ticker_result_ok text hype a (h a (List.mem_cons_self a as)))
    obtain ⟨rs, hrs⟩ := ih (fun t ht => h t (List.mem_cons_of_mem a ht))
    refine ⟨r :: rs, ?_⟩
    rw [List.mapM_cons, hr, hrs]
    simp [bind, Except.bind, pure, Except.pure]

theorem llm_build_results_ok (text : String) (parsed : Json)
    (h : responseOK parsed = true) :
    ∃ rs, llm_build_results text parsed = Except.ok rs := by
  cases parsed with
  | obj fs =>
    simp only [responseOK] at h
    cases htk : jlookup fs "tickers" with
    | none =>
      refine ⟨[], ?_⟩
      exact llm_build_results_empty text fs (Or.inl htk)
    | some v =>
      rw [htk] at h
      cases v with
      | arr ts =>
        obtain ⟨rs, hrs⟩ := mapM_llm_ok text
          ((jlookup fs "hype_score").getD (.num 0)) ts (by simpa using h)
        refine ⟨rs, ?_⟩
        simp only [llm_build_results, jget, htk, Option.getD, pyIter, bind_ok]
        exact hrs
      | null => simp at h
      | bool b => simp at h
      | num q => simp at h
      | str s2 => simp at h
      | obj fs2 => simp at h
  | null => simp [responseOK] at h
  | bool b => simp [responseOK] at h
  | num q => simp [responseOK] at h
  | str s2 => simp [responseOK] at h
  | arr xs => simp [responseOK] at h

/-- Claim C7 (amended): backend call failure, a response that still fails
to clean/parse after the one permitted retry, and an empty (or absent)
reported ticker list all resolve to the empty result list; a successfully
parsed response is handed to the result conversion.  The conversion can
raise past the boundary (see the counterexample), but it is guaranteed not
to raise whenever the parsed payload is an object whose `tickers` entries
are objects with string `symbol` fields and string-or-falsy `name` fields —
a sufficient condition only: ill-shaped `tickers` values over which Python
iteration yields no items (the empty string, the empty dict) also return
the empty list without raising. -/
theorem C7_failure_semantics (jsonParse : String → Option Json)
    (backend : ℕ → Option String) (text : String) :
    (backend 0 = none → llm_extractor jsonParse backend text = .ok []) ∧
    (∀ raw0, backend 0 = some raw0 →
      (clean_and_validate_json jsonParse (pyStrip raw0) = "" ∨
       jsonParse (clean_and_validate_json jsonParse (pyStrip raw0)) = none) →
      ((backend 1 = none → llm_extractor jsonParse backend text = .ok []) ∧
       (∀ raw1, backend 1 = some raw1 →
         (clean_and_validate_json jsonParse (pyStrip raw1) = "" ∨
          jsonParse (clean_and_validate_json jsonParse (pyStrip raw1)) = none) →
         llm_extractor jsonParse backend text = .ok []))) ∧
    (∀ raw0 parsed, backend 0 = some raw0 →
      clean_and_validate_json jsonParse (pyStrip raw0) ≠ "" →
      jsonParse (clean_and_validate_json jsonParse (pyStrip raw0)) = some parsed →
      llm_extractor jsonParse backend text = llm_build_results text parsed) ∧
    (∀ fs, (jlookup fs "tickers" = none ∨ jlookup fs "tickers" = some (.arr [])) →
      llm_build_results text (.obj fs) = .ok []) ∧
    (∀ parsed, responseOK parsed = true →
      ∃ rs, llm_build_results text parsed = Except.ok rs) ∧
    (∀ fs, (jlookup fs "tickers" = some (.str "") ∨ jlookup fs "tickers" = some (.obj [])) →
      llm_build_results text (.obj fs) = .ok []) := by
  refine ⟨?_, ?_, ?_, ?_, ?_, ?_⟩
  · intro hb0
    simp only [llm_extractor, hb0]
  · intro raw0 hb0 hfail0
    constructor
    · intro hb1
      simp only [llm_extractor, hb0]
      rcases hfail0 with hf | hf
      · rw [if_pos hf]
        simp only [llm_second_attempt, hb1]
      · by_cases hc0 : clean_and_validate_json jsonParse (pyStrip raw0) = ""
        · rw [if_pos hc0]
          simp only [llm_second_attempt, hb1]
        · rw [if_neg hc0, hf]
          simp only [llm_second_attempt, hb1]
    · intro raw1 hb1 hfail1
      have hsec : llm_second_attempt jsonParse backend text = .ok [] := by
        simp only [llm_second_attempt, hb1]
        rcases hfail1 with hf | hf
        · rw [if_pos hf]
        · by_cases hc1 : clean_and_validate_json jsonParse (pyStrip raw1) = ""
          · rw [if_pos hc1]
          · rw [if_neg hc1, hf]
      simp only [llm_extractor, hb0]
      rcases hfail0 with hf | hf
      · rw [if_pos hf]
        exact hsec
      · by_cases hc0 : clean_and_validate_json jsonParse (pyStrip raw0) = ""
        · rw [if_pos hc0]
          exact hsec
        · rw [if_neg hc0, hf]
          exact hsec
  · intro raw0 parsed hb0 hc0 hparse
    simp only [llm_extractor, hb0]
    rw [if_neg hc0, hparse]
  · intro fs h
    exact llm_build_results_empty text fs h
  · intro parsed h
    exact llm_build_results_ok text parsed h
  · intro fs h
    exact llm_build_results_empty_iteration text fs h

/-- Witness for the amended C7: a backend whose call always raises yields
the empty result list. -/
theorem C7_failure_semantics_witness :
    llm_extractor (fun _ => none) (fun _ => none) "t" = .ok [] :=
  (C7_failure_semantics (fun _ => none) (fun _ => none) "t").1 rfl
